import Mathlib

set_option autoImplicit false

/-!
Verification of the calhacks-12.0 retrieval pipeline against its
specification.  The backend pipeline components (embedding cache,
chunker, deduplicator, rate limiter, MMR reranker) are modelled from
the specification; the frontend API clients, the workflow-editor embed
node and the Supabase trigger functions are embedded from the source
files in the repository.
-/

namespace Rag

/-! ### Multi-tier embedding cache (spec §4.3) -/

abbrev Fingerprint := String

abbrev Vec := List Int

/-- A cache tier is a key→vector map, modelled as an association list. -/
abbrev Tier := List (Fingerprint × Vec)

/-- Lookup of a fingerprint in one tier. -/
def tierGet (t : Tier) (fp : Fingerprint) : Option Vec :=
  (t.find? (fun e => e.1 == fp)).map (·.2)

/-- Write a fingerprint/vector pair into one tier. -/
def tierPut (t : Tier) (fp : Fingerprint) (v : Vec) : Tier :=
  (fp, v) :: t

/-- Modelled from the spec: §4.3 — the three cache tiers L1/L2/L3.
The backend cache implementation is not part of the repository snapshot,
so the tiers are modelled as unbounded key→vector maps. -/
structure CacheState where
  l1 : Tier
  l2 : Tier
  l3 : Tier

/-- Which tier served a lookup, or `computed` on a full miss. -/
inductive ServedBy
  | l1
  | l2
  | l3
  | computed
deriving DecidableEq, Repr

/-- Result of one cache lookup: the vector, where it was served from,
and the updated cache state. -/
structure LookupResult where
  vec : Vec
  servedBy : ServedBy
  state : CacheState

/-- Modelled from the spec: §4.3 lookup protocol — check L1; on miss
check L2 and, if found, write back into L1; on miss check L3 and, if
found, write back into L1 and L2; on a full miss compute via the
embedding backend `embed` and write the result into all three tiers. -/
def cacheLookup (embed : Fingerprint → Vec) (st : CacheState) (fp : Fingerprint) :
    LookupResult :=
  match tierGet st.l1 fp with
  | some v => ⟨v, .l1, st⟩
  | none =>
    match tierGet st.l2 fp with
    | some v => ⟨v, .l2, { st with l1 := tierPut st.l1 fp v }⟩
    | none =>
      match tierGet st.l3 fp with
      | some v =>
          ⟨v, .l3, { st with l1 := tierPut st.l1 fp v, l2 := tierPut st.l2 fp v }⟩
      | none =>
          let v := embed fp
          ⟨v, .computed, ⟨tierPut st.l1 fp v, tierPut st.l2 fp v, tierPut st.l3 fp v⟩⟩

theorem tierGet_tierPut_same (t : Tier) (fp : Fingerprint) (v : Vec) :
    tierGet (tierPut t fp v) fp = some v := by
  simp [tierGet, tierPut, List.find?]

end Rag

/-- C1: after a full miss is served by computing the embedding and writing
it to all three tiers, the next lookup of the same fingerprint is served
from the tier chain without recomputation, and on the third identical
request L1, L2 and L3 each report a hit and return a vector bit-for-bit
equal to the first computed one. -/
theorem Rag.cache_write_through_C1 (embed : Fingerprint → Vec)
    (st0 : CacheState) (fp : Fingerprint)
    (h1 : tierGet st0.l1 fp = none) (h2 : tierGet st0.l2 fp = none)
    (h3 : tierGet st0.l3 fp = none) :
    (cacheLookup embed st0 fp).servedBy = .computed ∧
    (cacheLookup embed st0 fp).vec = embed fp ∧
    (cacheLookup embed (cacheLookup embed st0 fp).state fp).servedBy ≠ .computed ∧
    (cacheLookup embed (cacheLookup embed st0 fp).state fp).vec = embed fp ∧
    tierGet (cacheLookup embed (cacheLookup embed st0 fp).state fp).state.l1 fp
      = some (embed fp) ∧
    tierGet (cacheLookup embed (cacheLookup embed st0 fp).state fp).state.l2 fp
      = some (embed fp) ∧
    tierGet (cacheLookup embed (cacheLookup embed st0 fp).state fp).state.l3 fp
      = some (embed fp) ∧
    (cacheLookup embed
      (cacheLookup embed (cacheLookup embed st0 fp).state fp).state fp).servedBy
      ≠ .computed ∧
    (cacheLookup embed
      (cacheLookup embed (cacheLookup embed st0 fp).state fp).state fp).vec
      = embed fp := by
  have e1 : cacheLookup embed st0 fp =
      ⟨embed fp, .computed,
        ⟨tierPut st0.l1 fp (embed fp), tierPut st0.l2 fp (embed fp),
         tierPut st0.l3 fp (embed fp)⟩⟩ := by
    simp [cacheLookup, h1, h2, h3]
  rw [e1]
  have e2 : cacheLookup embed
      ⟨tierPut st0.l1 fp (embed fp), tierPut st0.l2 fp (embed fp),
       tierPut st0.l3 fp (embed fp)⟩ fp =
      ⟨embed fp, .l1,
        ⟨tierPut st0.l1 fp (embed fp), tierPut st0.l2 fp (embed fp),
         tierPut st0.l3 fp (embed fp)⟩⟩ := by
    simp [cacheLookup, tierGet_tierPut_same]
  rw [e2]
  refine ⟨rfl, rfl, by simp, rfl, ?_, ?_, ?_, ?_, ?_⟩
  · exact tierGet_tierPut_same _ _ _
  · exact tierGet_tierPut_same _ _ _
  · exact tierGet_tierPut_same _ _ _
  · rw [e2]; simp
  · rw [e2]

/-- C1 witness: concrete run of the miss-then-hit-then-hit sequence from
an empty cache. -/
theorem Rag.cache_write_through_C1_witness :
    (Rag.cacheLookup (fun _ => [1, 2, 3]) ⟨[], [], []⟩ "fp").servedBy
      = .computed ∧
    Rag.tierGet (Rag.cacheLookup (fun _ => [1, 2, 3])
      (Rag.cacheLookup (fun _ => [1, 2, 3]) ⟨[], [], []⟩ "fp").state
      "fp").state.l3 "fp" = some [1, 2, 3] := by
  have h := Rag.cache_write_through_C1 (fun _ => [1, 2, 3]) ⟨[], [], []⟩ "fp"
    rfl rfl rfl
  exact ⟨h.1, h.2.2.2.2.2.2.1⟩

namespace Rag

/-! ### Chunker (spec §4.2) -/

/-- Error taxonomy entry for invalid chunking parameters (spec §7). -/
inductive ChunkError
  | configError
deriving DecidableEq, Repr

/-- Modelled from the spec: §4.2 — number of chunks produced for a text of
`len` characters: one chunk if the text fits, otherwise chunk starts advance
by `maxChars - ovChars` until the remainder fits in one chunk. -/
def numChunks (maxChars ovChars len : Nat) : Nat :=
  if len ≤ maxChars then 1
  else 1 + (len - maxChars + (maxChars - ovChars) - 1) / (maxChars - ovChars)

/-- Modelled from the spec: §4.2 — the i-th chunk starts at
`i * (maxChars - ovChars)` and takes at most `maxChars` characters. -/
def chunkAt (maxChars ovChars : Nat) (t : List Char) (i : Nat) : List Char :=
  (t.drop (i * (maxChars - ovChars))).take maxChars

/-- Modelled from the spec: §4.2 — the ordered, finite chunk sequence. -/
def splitChunks (maxChars ovChars : Nat) (t : List Char) : List (List Char) :=
  (List.range (numChunks maxChars ovChars t.length)).map (chunkAt maxChars ovChars t)

/-- Modelled from the spec: §4.2 — `split` validates `overlap_chars <
max_chars` and fails with `ConfigError` otherwise. -/
def split (maxChars ovChars : Nat) (t : List Char) :
    Except ChunkError (List (List Char)) :=
  if maxChars ≤ ovChars then .error .configError
  else .ok (splitChunks maxChars ovChars t)

end Rag

example : Rag.splitChunks 5 2 "abcdefgh".toList
    = ["abcde".toList, "defgh".toList] := by decide

example : Rag.split 5 5 "abcdefgh".toList = .error .configError := rfl

example : Rag.splitChunks 5 2 "abc".toList = ["abc".toList] := by decide

example : Rag.splitChunks 5 2 "abcdefghijk".toList
    = ["abcde".toList, "defgh".toList, "ghijk".toList] := by decide

namespace Rag

theorem chunk_start_bound (maxChars ovChars len i : Nat)
    (hov : ovChars < maxChars)
    (hi : i + 1 < numChunks maxChars ovChars len) :
    i * (maxChars - ovChars) + maxChars < len := by
  unfold numChunks at hi
  by_cases hlen : len ≤ maxChars
  · simp [hlen] at hi
  · simp only [if_neg hlen] at hi
    set s := maxChars - ovChars with hs
    have hspos : 0 < s := by omega
    have h1 : i + 1 ≤ (len - maxChars + s - 1) / s := by omega
    have h2 : (i + 1) * s ≤ len - maxChars + s - 1 :=
      (Nat.le_div_iff_mul_le hspos).mp h1
    have h3 : (i + 1) * s = i * s + s := by ring
    rw [h3] at h2
    omega

theorem chunkAt_length_full (maxChars ovChars : Nat) (t : List Char) (i : Nat)
    (hov : ovChars < maxChars)
    (hi : i + 1 < numChunks maxChars ovChars t.length) :
    (chunkAt maxChars ovChars t i).length = maxChars := by
  have hb := chunk_start_bound maxChars ovChars t.length i hov hi
  unfold chunkAt
  simp only [List.length_take, List.length_drop]
  omega

theorem chunkAt_length_le (maxChars ovChars : Nat) (t : List Char) (i : Nat) :
    (chunkAt maxChars ovChars t i).length ≤ maxChars := by
  unfold chunkAt
  simp only [List.length_take, List.length_drop]
  omega

theorem chunkAt_drop_eq (maxChars ovChars : Nat) (t : List Char) (i : Nat)
    (hov : ovChars < maxChars) :
    (chunkAt maxChars ovChars t i).drop (maxChars - ovChars)
      = (t.drop ((i + 1) * (maxChars - ovChars))).take ovChars := by
  unfold chunkAt
  rw [List.drop_take]
  have h1 : maxChars - (maxChars - ovChars) = ovChars := by omega
  rw [h1, List.drop_drop]
  congr 2
  ring

theorem chunkAt_take_eq (maxChars ovChars : Nat) (t : List Char) (i : Nat)
    (hov : ovChars < maxChars) :
    (chunkAt maxChars ovChars t (i + 1)).take ovChars
      = (t.drop ((i + 1) * (maxChars - ovChars))).take ovChars := by
  unfold chunkAt
  rw [List.take_take]
  congr 1
  omega

theorem overlap_segment_length (maxChars ovChars : Nat) (t : List Char) (i : Nat)
    (hov : ovChars < maxChars)
    (hi : i + 1 < numChunks maxChars ovChars t.length) :
    ((t.drop ((i + 1) * (maxChars - ovChars))).take ovChars).length = ovChars := by
  have hb := chunk_start_bound maxChars ovChars t.length i hov hi
  have h3 : (i + 1) * (maxChars - ovChars)
      = i * (maxChars - ovChars) + (maxChars - ovChars) := by ring
  simp only [List.length_take, List.length_drop, h3]
  omega

theorem splitChunks_length (maxChars ovChars : Nat) (t : List Char) :
    (splitChunks maxChars ovChars t).length = numChunks maxChars ovChars t.length := by
  simp [splitChunks]

theorem splitChunks_getD (maxChars ovChars : Nat) (t : List Char) (i : Nat)
    (hi : i < numChunks maxChars ovChars t.length) :
    (splitChunks maxChars ovChars t).getD i [] = chunkAt maxChars ovChars t i := by
  unfold splitChunks
  rw [List.getD_eq_getElem _ _ (by simpa using hi)]
  simp

end Rag

/-- C6 (amended): for every text and every configuration with
`overlap_chars < max_chars`, every chunk except the last has length exactly
`max_chars` (and the last has length at most `max_chars`); chunk `i`'s last
`overlap_chars` characters coincide with chunk `i+1`'s first `overlap_chars`
characters, and this shared block is byte-identical to the `overlap_chars`
consecutive characters of the source text starting at position
`(i+1) * (max_chars - overlap_chars)`. -/
theorem Rag.chunker_overlap_C6 (maxChars ovChars : Nat) (t : List Char)
    (hov : ovChars < maxChars) (i : Nat)
    (hi : i + 1 < (splitChunks maxChars ovChars t).length) :
    ((splitChunks maxChars ovChars t).getD i []).length = maxChars ∧
    ((splitChunks maxChars ovChars t).getD
        ((splitChunks maxChars ovChars t).length - 1) []).length ≤ maxChars ∧
    ((splitChunks maxChars ovChars t).getD i []).drop (maxChars - ovChars)
      = ((splitChunks maxChars ovChars t).getD (i + 1) []).take ovChars ∧
    ((splitChunks maxChars ovChars t).getD (i + 1) []).take ovChars
      = (t.drop ((i + 1) * (maxChars - ovChars))).take ovChars ∧
    ((t.drop ((i + 1) * (maxChars - ovChars))).take ovChars).length = ovChars := by
  rw [splitChunks_length] at hi
  have hi0 : i < numChunks maxChars ovChars t.length := by omega
  have hi1 : i + 1 < numChunks maxChars ovChars t.length := hi
  have hlast : numChunks maxChars ovChars t.length - 1
      < numChunks maxChars ovChars t.length := by
    unfold numChunks
    by_cases hlen : t.length ≤ maxChars <;> simp [hlen]
  refine ⟨?_, ?_, ?_, ?_, ?_⟩
  · rw [splitChunks_getD maxChars ovChars t i hi0]
    exact chunkAt_length_full maxChars ovChars t i hov hi
  · rw [splitChunks_length,
      splitChunks_getD maxChars ovChars t _ hlast]
    exact chunkAt_length_le maxChars ovChars t _
  · rw [splitChunks_getD maxChars ovChars t i hi0,
      splitChunks_getD maxChars ovChars t (i + 1) hi1,
      chunkAt_drop_eq maxChars ovChars t i hov,
      chunkAt_take_eq maxChars ovChars t i hov]
  · rw [splitChunks_getD maxChars ovChars t (i + 1) hi1]
    exact chunkAt_take_eq maxChars ovChars t i hov
  · exact overlap_segment_length maxChars ovChars t i hov hi

/-- C6 witness: concrete instantiation at `max_chars = 5`,
`overlap_chars = 2` on the eight-character text `abcdefgh`. -/
theorem Rag.chunker_overlap_C6_witness :
    ((Rag.splitChunks 5 2 "abcdefgh".toList).getD 0 []).length = 5 ∧
    ((Rag.splitChunks 5 2 "abcdefgh".toList).getD
        ((Rag.splitChunks 5 2 "abcdefgh".toList).length - 1) []).length ≤ 5 ∧
    ((Rag.splitChunks 5 2 "abcdefgh".toList).getD 0 []).drop 3
      = ((Rag.splitChunks 5 2 "abcdefgh".toList).getD 1 []).take 2 ∧
    ((Rag.splitChunks 5 2 "abcdefgh".toList).getD 1 []).take 2
      = ("abcdefgh".toList.drop 3).take 2 ∧
    (("abcdefgh".toList.drop 3).take 2).length = 2 :=
  Rag.chunker_overlap_C6 5 2 "abcdefgh".toList (by decide) 0 (by decide)

/-- C6 counterexample: the claim as literally stated is false — the
concatenation of chunk `i`'s last `overlap_chars` characters with chunk
`i+1`'s first `overlap_chars` characters has length `2 * overlap_chars`,
so it cannot be byte-identical to any `overlap_chars` consecutive
characters of the source text; shown at `max_chars = 5`,
`overlap_chars = 2`, text `abcdefgh`. -/
theorem Rag.chunker_concat_counterexample_C6 :
    ¬ ∃ p : Nat,
      ((Rag.splitChunks 5 2 "abcdefgh".toList).getD 0 []).drop 3 ++
        ((Rag.splitChunks 5 2 "abcdefgh".toList).getD 1 []).take 2
        = ("abcdefgh".toList.drop p).take 2 := by
  rintro ⟨p, hp⟩
  have h4 : (("abcdefgh".toList.drop p).take 2).length = 4 := by
    rw [← hp]; decide
  have h8 : "abcdefgh".toList.length = 8 := by decide
  simp only [List.length_take, List.length_drop, h8] at h4
  omega

namespace Rag

/-! ### ContentHasher, Namespace Store and deduplicating ingest
(spec §4.1, §4.6, §6) -/

/-- Modelled from the spec: §4.1 ContentHasher — deterministic fingerprint
of whitespace-normalized text.  The hash value is modelled as the
normalized text itself, matching the spec's collision-is-identity
assumption (§3). -/
def fingerprint (text : String) : Fingerprint :=
  " ".intercalate ((text.split (fun c => c.isWhitespace)).filter
    (fun w => !w.isEmpty))

/-- A namespace-store record (spec §3 NamespaceRecord); metadata elided. -/
structure NsRecord where
  ns : String
  fp : Fingerprint
  vec : Vec

/-- Modelled from the spec: §4.6 Namespace Store, as a list of records. -/
abbrev Store := List NsRecord

/-- Namespace Store membership check, spec §4.6 `has(namespace, fingerprint)`. -/
def hasRec (s : Store) (ns : String) (fp : Fingerprint) : Bool :=
  s.any (fun r => r.ns == ns && r.fp == fp)

/-- Namespace Store `insert(namespace, record)` (spec §4.6). -/
def insertRec (s : Store) (r : NsRecord) : Store :=
  r :: s

/-- Modelled from the spec: §4.6 Deduplicator loop — for each chunk compute
the fingerprint and check `has`; if present count as deduped and skip
embedding entirely, otherwise embed and insert.  Returns
`(chunks_added, chunks_deduped, store)`. -/
def ingestList (embed : List Char → Vec) (ns : String) :
    List (List Char) → Store → Nat × Nat × Store
  | [], s => (0, 0, s)
  | c :: cs, s =>
    let fp := fingerprint (String.mk c)
    if hasRec s ns fp then
      let r := ingestList embed ns cs s
      (r.1, r.2.1 + 1, r.2.2)
    else
      let r := ingestList embed ns cs (insertRec s ⟨ns, fp, embed c⟩)
      (r.1 + 1, r.2.1, r.2.2)

/-- Ingest report (spec §6). -/
structure IngestReport where
  chunks_in : Nat
  chunks_added : Nat
  chunks_deduped : Nat
deriving DecidableEq, Repr

/-- Modelled from the spec: §6 `ingest(namespace, text)` — split the text,
dedupe chunk by chunk, and report the counts; chunker errors propagate
unchanged (spec §7). -/
def ingest (embed : List Char → Vec) (maxChars ovChars : Nat) (ns : String)
    (t : List Char) (s : Store) : Except ChunkError (IngestReport × Store) :=
  match split maxChars ovChars t with
  | .error e => .error e
  | .ok cs =>
    let r := ingestList embed ns cs s
    .ok (⟨cs.length, r.1, r.2.1⟩, r.2.2)

theorem hasRec_insertRec (s : Store) (r : NsRecord) (ns : String)
    (fp : Fingerprint) (h : hasRec s ns fp = true) :
    hasRec (insertRec s r) ns fp = true := by
  simp only [hasRec, insertRec, List.any_cons, Bool.or_eq_true] at h ⊢
  exact Or.inr h

theorem ingestList_mono (embed : List Char → Vec) (ns : String)
    (cs : List (List Char)) :
    ∀ s : Store, ∀ ns2 fp2, hasRec s ns2 fp2 = true →
      hasRec (ingestList embed ns cs s).2.2 ns2 fp2 = true := by
  induction cs with
  | nil => intro s ns2 fp2 h; simpa [ingestList] using h
  | cons c cs ih =>
    intro s ns2 fp2 h
    by_cases hc : hasRec s ns (fingerprint (String.mk c)) = true
    · simp only [ingestList, hc, if_true]
      exact ih s ns2 fp2 h
    · simp only [ingestList, hc, if_false, Bool.false_eq_true]
      exact ih _ ns2 fp2 (hasRec_insertRec _ _ _ _ h)

theorem ingestList_post (embed : List Char → Vec) (ns : String)
    (cs : List (List Char)) :
    ∀ s : Store, ∀ c ∈ cs,
      hasRec (ingestList embed ns cs s).2.2 ns (fingerprint (String.mk c))
        = true := by
  induction cs with
  | nil => intro s c hc; simp at hc
  | cons c0 cs ih =>
    intro s c hc
    by_cases hc0 : hasRec s ns (fingerprint (String.mk c0)) = true
    · rcases List.mem_cons.mp hc with rfl | hmem
      · simp only [ingestList, hc0, if_true]
        exact ingestList_mono embed ns cs s _ _ hc0
      · simp only [ingestList, hc0, if_true]
        exact ih s c hmem
    · have hin : hasRec (insertRec s ⟨ns, fingerprint (String.mk c0), embed c0⟩)
          ns (fingerprint (String.mk c0)) = true := by
        simp [hasRec, insertRec]
      rcases List.mem_cons.mp hc with rfl | hmem
      · simp only [ingestList, hc0, if_false, Bool.false_eq_true]
        exact ingestList_mono embed ns cs _ _ _ hin
      · simp only [ingestList, hc0, if_false, Bool.false_eq_true]
        exact ih _ c hmem

theorem ingestList_all_present (embed : List Char → Vec) (ns : String)
    (cs : List (List Char)) :
    ∀ s : Store, (∀ c ∈ cs, hasRec s ns (fingerprint (String.mk c)) = true) →
      ingestList embed ns cs s = (0, cs.length, s) := by
  induction cs with
  | nil => intro s h; simp [ingestList]
  | cons c cs ih =>
    intro s h
    have hc : hasRec s ns (fingerprint (String.mk c)) = true := h c (by simp)
    have hrest := ih s (fun c2 hc2 => h c2 (by simp [hc2]))
    simp only [ingestList, hc, if_true, hrest, List.length_cons]

end Rag

/-- C3: ingest is idempotent per namespace — a second ingest of the same
text into the same namespace returns `chunks_added = 0` and
`chunks_deduped = chunks_in`, because every chunk fingerprint is already
present in the namespace store after the first ingest. -/
theorem Rag.ingest_idempotent_C3 (embed : List Char → Vec)
    (maxChars ovChars : Nat) (ns : String) (t : List Char) (s : Store)
    (hov : ovChars < maxChars) :
    ∃ rep1 s1 rep2 s2,
      ingest embed maxChars ovChars ns t s = .ok (rep1, s1) ∧
      ingest embed maxChars ovChars ns t s1 = .ok (rep2, s2) ∧
      rep2.chunks_added = 0 ∧
      rep2.chunks_deduped = rep2.chunks_in := by
  have hns : ¬ maxChars ≤ ovChars := by omega
  refine ⟨⟨(splitChunks maxChars ovChars t).length,
      (ingestList embed ns (splitChunks maxChars ovChars t) s).1,
      (ingestList embed ns (splitChunks maxChars ovChars t) s).2.1⟩,
    (ingestList embed ns (splitChunks maxChars ovChars t) s).2.2,
    ⟨(splitChunks maxChars ovChars t).length, 0,
      (splitChunks maxChars ovChars t).length⟩,
    (ingestList embed ns (splitChunks maxChars ovChars t) s).2.2,
    ?_, ?_, rfl, rfl⟩
  · simp [ingest, split, hns]
  · have hall := ingestList_post embed ns (splitChunks maxChars ovChars t) s
    have h2 := ingestList_all_present embed ns (splitChunks maxChars ovChars t)
      (ingestList embed ns (splitChunks maxChars ovChars t) s).2.2 hall
    simp [ingest, split, hns, h2]

/-- C3 witness: concrete double ingest of `abcdefgh` with
`max_chars = 5`, `overlap_chars = 2` into namespace `n` from an empty
store. -/
theorem Rag.ingest_idempotent_C3_witness :
    ∃ rep1 s1 rep2 s2,
      Rag.ingest (fun _ => [0]) 5 2 "n" "abcdefgh".toList [] = .ok (rep1, s1) ∧
      Rag.ingest (fun _ => [0]) 5 2 "n" "abcdefgh".toList s1 = .ok (rep2, s2) ∧
      rep2.chunks_added = 0 ∧
      rep2.chunks_deduped = rep2.chunks_in :=
  Rag.ingest_idempotent_C3 (fun _ => [0]) 5 2 "n" "abcdefgh".toList []
    (by decide)

/-- C7: calling `split` with `overlap_chars ≥ max_chars` fails with
`ConfigError`, and the error propagates unchanged through `ingest`; for
`overlap_chars < max_chars`, `split` never returns `ConfigError`. -/
theorem Rag.split_config_error_C7 (maxChars ovChars : Nat) (t : List Char) :
    (maxChars ≤ ovChars →
      split maxChars ovChars t = .error .configError ∧
      ∀ (embed : List Char → Vec) (ns : String) (s : Store),
        ingest embed maxChars ovChars ns t s = .error .configError) ∧
    (ovChars < maxChars →
      ∃ cs, split maxChars ovChars t = .ok cs) := by
  constructor
  · intro h
    refine ⟨by simp [split, h], fun embed ns s => ?_⟩
    simp [ingest, split, h]
  · intro h
    refine ⟨splitChunks maxChars ovChars t, ?_⟩
    unfold split
    rw [if_neg (by omega)]

/-- C7 witness: concrete instantiations of both branches. -/
theorem Rag.split_config_error_C7_witness :
    Rag.split 3 5 "ab".toList = .error .configError ∧
    ∃ cs, Rag.split 5 2 "ab".toList = .ok cs :=
  ⟨((Rag.split_config_error_C7 3 5 "ab".toList).1 (by decide)).1,
    (Rag.split_config_error_C7 5 2 "ab".toList).2 (by decide)⟩

namespace Rag

/-! ### Rate limiter (spec §4.5) -/

/-- Modelled from the spec: §3 RateBudget / §9 — a rolling window holding
its start timestamp and the tokens consumed inside it. -/
structure RateWindow where
  windowStart : Nat
  periodSeconds : Nat
  tokensUsed : Nat
deriving DecidableEq, Repr

/-- The recoverable rate-limit failure, carrying the remaining wait time
until the window resets (spec §4.5, §7). -/
structure RateLimitExceeded where
  retryAfter : Nat
deriving DecidableEq, Repr

/-- Modelled from the spec: §4.5 lazy window reset — a window is cleared
when first touched after its period has elapsed. -/
def refreshWindow (now : Nat) (w : RateWindow) : RateWindow :=
  if w.windowStart + w.periodSeconds ≤ now then ⟨now, w.periodSeconds, 0⟩ else w

/-- Modelled from the spec: §4.5 check-and-reserve — after the lazy reset,
a call consuming `cost` tokens succeeds iff it fits in the budget;
otherwise it fails with `RateLimitExceeded` carrying the remaining wait
time until the window resets. -/
def tryAcquire (budget cost now : Nat) (w : RateWindow) :
    Except RateLimitExceeded RateWindow :=
  let w1 := refreshWindow now w
  if w1.tokensUsed + cost ≤ budget then
    .ok { w1 with tokensUsed := w1.tokensUsed + cost }
  else
    .error ⟨w1.windowStart + w1.periodSeconds - now⟩

/-- Reported `tokens_remaining` of a window (spec §6 `usage()`). -/
def tokensRemaining (budget : Nat) (w : RateWindow) : Int :=
  (budget : Int) - (w.tokensUsed : Int)

/-- N sequential calls each costing `cost` tokens at time `now`; returns
the number of accepted calls and the final window state. -/
def runCalls (budget cost now : Nat) : Nat → RateWindow → Nat × RateWindow
  | 0, w => (0, w)
  | n + 1, w =>
    match tryAcquire budget cost now w with
    | .ok w1 => let r := runCalls budget cost now n w1; (r.1 + 1, r.2)
    | .error _ => runCalls budget cost now n w

theorem runCalls_spec (budget cost now p : Nat) (hc : 0 < cost) (hp : 0 < p) :
    ∀ (n u : Nat), u ≤ budget →
      runCalls budget cost now n ⟨now, p, u⟩
        = (min n ((budget - u) / cost),
           ⟨now, p, u + min n ((budget - u) / cost) * cost⟩) := by
  intro n
  induction n with
  | zero => intro u hu; simp [runCalls]
  | succ n ih =>
    intro u hu
    have hnr : ¬ (now + p ≤ now) := by omega
    by_cases hfits : u + cost ≤ budget
    · have htry : tryAcquire budget cost now ⟨now, p, u⟩
          = .ok ⟨now, p, u + cost⟩ := by
        simp [tryAcquire, refreshWindow, hnr, hfits]
      have hdiv : (budget - u) / cost = (budget - u - cost) / cost + 1 :=
        Nat.div_eq_sub_div hc (by omega)
      have hrec := ih (u + cost) (by omega)
      have hbc : budget - (u + cost) = budget - u - cost := by omega
      rw [hbc] at hrec
      simp only [runCalls, htry, hrec]
      have hmin : min (n + 1) ((budget - u) / cost)
          = min n ((budget - u - cost) / cost) + 1 := by
        rw [hdiv]; omega
      rw [hmin]
      have hmul : (min n ((budget - u - cost) / cost) + 1) * cost
          = min n ((budget - u - cost) / cost) * cost + cost := by ring
      simp only [Prod.mk.injEq, RateWindow.mk.injEq, hmul]
      refine ⟨trivial, trivial, trivial, by omega⟩
    · have htry : tryAcquire budget cost now ⟨now, p, u⟩
          = .error ⟨p⟩ := by
        simp [tryAcquire, refreshWindow, hnr, hfits]
      have hdiv0 : (budget - u) / cost = 0 := Nat.div_eq_of_lt (by omega)
      have hrec := ih u hu
      simp only [runCalls, htry, hrec, hdiv0]
      simp

end Rag

/-- C4: for every budget `B > 0` and per-call cost `c > 0`, issuing `N`
sequential calls each costing `c` tokens within one window, the limiter
accepts exactly `min N (B / c)` calls — so exactly `floor(B/c)` once
`N ≥ floor(B/c)` — every subsequent call fails with `RateLimitExceeded`
carrying the remaining wait time until the window resets, and the
reported `tokens_remaining` is never negative. -/
theorem Rag.rate_limiter_conservation_C4 (budget cost p now N : Nat)
    (hB : 0 < budget) (hc : 0 < cost) (hp : 0 < p) :
    (Rag.runCalls budget cost now N ⟨now, p, 0⟩).1 = min N (budget / cost) ∧
    0 ≤ Rag.tokensRemaining budget
      (Rag.runCalls budget cost now N ⟨now, p, 0⟩).2 ∧
    (budget / cost ≤ N →
      Rag.tryAcquire budget cost now
        (Rag.runCalls budget cost now N ⟨now, p, 0⟩).2 = .error ⟨p⟩) := by
  have h := Rag.runCalls_spec budget cost now p hc hp N 0 (by omega)
  simp only [Nat.sub_zero, Nat.zero_add] at h
  rw [h]
  have hle : min N (budget / cost) * cost ≤ budget := by
    calc min N (budget / cost) * cost
        ≤ (budget / cost) * cost := Nat.mul_le_mul_right _ (Nat.min_le_right _ _)
      _ ≤ budget := Nat.div_mul_le_self _ _
  refine ⟨rfl, ?_, ?_⟩
  · unfold Rag.tokensRemaining
    simp only []
    omega
  · intro hN
    have hmin : min N (budget / cost) = budget / cost := by omega
    rw [hmin]
    have hnr : ¬ (now + p ≤ now) := by omega
    have hno : ¬ (budget / cost * cost + cost ≤ budget) := by
      intro hcon
      have h2 : (budget / cost + 1) * cost ≤ budget := by
        have hm : (budget / cost + 1) * cost = budget / cost * cost + cost := by
          ring
        omega
      have h3 : budget / cost + 1 ≤ budget / cost :=
        (Nat.le_div_iff_mul_le hc).mpr h2
      omega
    simp [Rag.tryAcquire, Rag.refreshWindow, hnr, hno]

/-- C4 witness: budget 10, cost 3, a 60-second window, 5 sequential
calls — exactly 3 are accepted, the remaining budget is non-negative,
and the next call fails with a 60-second retry-after. -/
theorem Rag.rate_limiter_conservation_C4_witness :
    (Rag.runCalls 10 3 0 5 ⟨0, 60, 0⟩).1 = min 5 (10 / 3) ∧
    0 ≤ Rag.tokensRemaining 10 (Rag.runCalls 10 3 0 5 ⟨0, 60, 0⟩).2 ∧
    (10 / 3 ≤ 5 →
      Rag.tryAcquire 10 3 0 (Rag.runCalls 10 3 0 5 ⟨0, 60, 0⟩).2
        = .error ⟨60⟩) :=
  Rag.rate_limiter_conservation_C4 10 3 60 0 5 (by decide) (by decide)
    (by decide)

namespace Rag

/-! ### MMR reranker (spec §4.4) -/

/-- Modelled from the spec: §4.4 — relevance is the inverse of the
candidate's similarity distance to the query, realised as `1 / (1 + d)`
to keep the function total on distance `0`. -/
def relevance (d : ℚ) : ℚ := 1 / (1 + d)

/-- Modelled from the spec: §4.4 — maximum similarity of a candidate to
the already-selected set, `0` when the selected set is empty. -/
def maxSim {α : Type} (sim : α → α → ℚ) (sel : List α) (c : α) : ℚ :=
  (sel.map (fun s => sim c s)).foldr max 0

/-- Modelled from the spec: §4.4 —
`score = λ * relevance − (1 − λ) * max_similarity(candidate, selected)`. -/
def mmrScore {α : Type} (lam : ℚ) (dist : α → ℚ) (sim : α → α → ℚ)
    (sel : List α) (c : α) : ℚ :=
  lam * relevance (dist c) - (1 - lam) * maxSim sim sel c

/-- Highest-score candidate and its index; ties break toward the earlier
list position, i.e. the better original rank (spec §4.4 tie-break rule). -/
def bestAux {α : Type} (f : α → ℚ) : List α → Option (α × Nat)
  | [] => none
  | c :: rest =>
    match bestAux f rest with
    | none => some (c, 0)
    | some (b, j) => if f c < f b then some (b, j + 1) else some (c, 0)

/-- Modelled from the spec: §4.4 greedy loop — select the best-scoring
remaining candidate, move it to the selected set, repeat until `k` items
are selected or candidates are exhausted. -/
def mmrGo {α : Type} (lam : ℚ) (dist : α → ℚ) (sim : α → α → ℚ) :
    Nat → List α → List α → List α
  | 0, _, _ => []
  | fuel + 1, sel, rem =>
    match bestAux (mmrScore lam dist sim sel) rem with
    | none => []
    | some (b, j) => b :: mmrGo lam dist sim fuel (sel ++ [b]) (rem.eraseIdx j)

/-- Modelled from the spec: §4.4 — MMR reranking with the edge case that
`k ≥ n` returns all candidates in original order. -/
def mmr {α : Type} (lam : ℚ) (dist : α → ℚ) (sim : α → α → ℚ) (k : Nat)
    (cands : List α) : List α :=
  if cands.length ≤ k then cands else mmrGo lam dist sim k [] cands

theorem bestAux_mem {α : Type} (f : α → ℚ) (l : List α) (b : α) (j : Nat)
    (h : bestAux f l = some (b, j)) : b ∈ l := by
  induction l generalizing b j with
  | nil => simp [bestAux] at h
  | cons c rest ih =>
    cases hb : bestAux f rest with
    | none =>
      simp only [bestAux, hb, Option.some.injEq, Prod.mk.injEq] at h
      simp [← h.1]
    | some bj =>
      obtain ⟨b0, j0⟩ := bj
      simp only [bestAux, hb] at h
      by_cases hlt : f c < f b0
      · rw [if_pos hlt] at h
        simp only [Option.some.injEq, Prod.mk.injEq] at h
        exact List.mem_cons_of_mem c (h.1 ▸ ih b0 j0 hb)
      · rw [if_neg hlt] at h
        simp only [Option.some.injEq, Prod.mk.injEq] at h
        simp [← h.1]

theorem bestAux_first_of_max {α : Type} (f : α → ℚ) (c : α) (rest : List α)
    (h : ∀ b ∈ rest, f b ≤ f c) : bestAux f (c :: rest) = some (c, 0) := by
  cases hb : bestAux f rest with
  | none => simp [bestAux, hb]
  | some bj =>
    obtain ⟨b, j⟩ := bj
    have hmem := bestAux_mem f rest b j hb
    simp only [bestAux, hb]
    rw [if_neg (not_lt.mpr (h b hmem))]

theorem mmrScore_one {α : Type} (dist : α → ℚ) (sim : α → α → ℚ)
    (sel : List α) (c : α) :
    mmrScore 1 dist sim sel c = relevance (dist c) := by
  unfold mmrScore
  ring

theorem mmrScore_nil {α : Type} (lam : ℚ) (dist : α → ℚ) (sim : α → α → ℚ)
    (c : α) :
    mmrScore lam dist sim [] c = lam * relevance (dist c) := by
  unfold mmrScore maxSim
  simp

theorem relevance_antitone (d1 d2 : ℚ) (h1 : 0 ≤ d1) (hle : d1 ≤ d2) :
    relevance d2 ≤ relevance d1 := by
  unfold relevance
  apply one_div_le_one_div_of_le
  · linarith
  · linarith

theorem mmrGo_one_sorted {α : Type} (dist : α → ℚ) (sim : α → α → ℚ) :
    ∀ (fuel : Nat) (sel rem : List α),
      rem.Pairwise (fun a b => dist a ≤ dist b) →
      (∀ c ∈ rem, 0 ≤ dist c) →
      mmrGo 1 dist sim fuel sel rem = rem.take fuel := by
  intro fuel
  induction fuel with
  | zero => intro sel rem _ _; simp [mmrGo]
  | succ fuel ih =>
    intro sel rem hsort hnn
    cases rem with
    | nil => simp [mmrGo, bestAux]
    | cons c rest =>
      have hfun : mmrScore 1 dist sim sel = fun x => relevance (dist x) :=
        funext (fun x => mmrScore_one dist sim sel x)
      have hmax : ∀ b ∈ rest, relevance (dist b) ≤ relevance (dist c) := by
        intro b hb
        exact relevance_antitone (dist c) (dist b) (hnn c (by simp))
          ((List.pairwise_cons.mp hsort).1 b hb)
      have hbest : bestAux (mmrScore 1 dist sim sel) (c :: rest)
          = some (c, 0) := by
        rw [hfun]
        exact bestAux_first_of_max _ c rest hmax
      simp only [mmrGo, hbest, List.eraseIdx]
      rw [ih (sel ++ [c]) rest (List.pairwise_cons.mp hsort).2
        (fun b hb => hnn b (by simp [hb]))]
      simp

end Rag

/-- C5: for every candidate list ordered by ascending distance with
non-negative distances, the first item selected by MMR is the single
most relevant candidate (minimal distance, ties broken toward the
original rank — i.e. the list head) for every `λ > 0`; and for `λ = 1`
the entire reranked order equals the original similarity order
(`cands.take k`). -/
theorem Rag.mmr_rerank_C5 {α : Type} (lam : ℚ) (dist : α → ℚ)
    (sim : α → α → ℚ) (k : Nat) (cands : List α)
    (hlam : 0 < lam) (hk : 0 < k)
    (hsort : cands.Pairwise (fun a b => dist a ≤ dist b))
    (hnn : ∀ c ∈ cands, 0 ≤ dist c) :
    (mmr lam dist sim k cands).head? = cands.head? ∧
    mmr 1 dist sim k cands = cands.take k := by
  constructor
  · unfold mmr
    by_cases hlen : cands.length ≤ k
    · rw [if_pos hlen]
    · rw [if_neg hlen]
      obtain ⟨k2, rfl⟩ : ∃ k2, k = k2 + 1 := ⟨k - 1, by omega⟩
      cases cands with
      | nil => simp at hlen
      | cons c rest =>
        have hfun : mmrScore lam dist sim []
            = fun x => lam * relevance (dist x) :=
          funext (fun x => mmrScore_nil lam dist sim x)
        have hmax : ∀ b ∈ rest,
            lam * relevance (dist b) ≤ lam * relevance (dist c) := by
          intro b hb
          have hrel := relevance_antitone (dist c) (dist b) (hnn c (by simp))
            ((List.pairwise_cons.mp hsort).1 b hb)
          exact mul_le_mul_of_nonneg_left hrel (le_of_lt hlam)
        have hbest : bestAux (mmrScore lam dist sim []) (c :: rest)
            = some (c, 0) := by
          rw [hfun]
          exact bestAux_first_of_max _ c rest hmax
        simp [mmrGo, hbest]
  · unfold mmr
    by_cases hlen : cands.length ≤ k
    · rw [if_pos hlen, List.take_of_length_le hlen]
    · rw [if_neg hlen]
      exact mmrGo_one_sorted dist sim k [] cands hsort hnn

/-- C5 witness: two candidates at equal distance `0` with `λ = 1/2` and
`k = 1` — the first pick is the original head, and with `λ = 1` the
reranked order is the original order truncated to `k`. -/
theorem Rag.mmr_rerank_C5_witness :
    (Rag.mmr (1/2) (fun _ => (0 : ℚ)) (fun _ _ => (0 : ℚ)) 1
      [(0 : Nat), 1]).head? = ([(0 : Nat), 1]).head? ∧
    Rag.mmr 1 (fun _ => (0 : ℚ)) (fun _ _ => (0 : ℚ)) 1 [(0 : Nat), 1]
      = [(0 : Nat), 1].take 1 :=
  Rag.mmr_rerank_C5 (1/2) (fun _ => (0 : ℚ)) (fun _ _ => (0 : ℚ)) 1
    [(0 : Nat), 1] one_half_pos (by decide) (by simp) (by simp)

namespace Rag

/-! ### Exposed HTTP interface of the retrieval-pipeline backend
(src/backend/README.md, src/unnamed/part_009, src/unnamed/part_013) -/

/-- Kind of a JSON value in a documented example body. -/
inductive JsonKind
  | str
  | num
  | bool
  | arr
  | obj
deriving DecidableEq, Repr

/-- POST /query request of the pipeline backend with the value kind of
each field in the documented example body (src/unnamed/part_009: the
`rerank` parameter is the string `"mmr"`, not a boolean). -/
def pipelineQueryRequestFieldKinds : List (String × JsonKind) :=
  [("namespace", .str), ("query", .str), ("k", .num), ("rerank", .str)]

/-- Field names of the pipeline backend's POST /query request
(src/unnamed/part_009). -/
def pipelineQueryRequestFields : List String :=
  pipelineQueryRequestFieldKinds.map (fun e => e.1)

/-- Field names of the pipeline backend's POST /query response
(src/unnamed/part_009). -/
def pipelineQueryResponseFields : List String :=
  ["context", "metadatas", "ids", "k", "rerank", "ms", "namespace"]

/-- Field names of the pipeline backend's POST /embed request
(src/unnamed/part_009). -/
def pipelineEmbedRequestFields : List String :=
  ["path", "namespace"]

/-- Field names of the pipeline backend's POST /embed response
(src/unnamed/part_009). -/
def pipelineEmbedResponseFields : List String :=
  ["chunks_in", "chunks_added", "chunks_deduped", "namespace",
   "embedding_dim", "ms"]

/-- Field names of the POST /query request documented in
src/backend/README.md. -/
def readmeQueryRequestFields : List String :=
  ["namespace", "query", "k", "rerank"]

/-- Field names of the POST /query response documented in
src/backend/README.md. -/
def readmeQueryResponseFields : List String :=
  ["context", "metadatas", "ids", "k", "rerank", "ms", "namespace"]

/-- Field names of the POST /embed request documented in
src/backend/README.md. -/
def readmeEmbedRequestFields : List String :=
  ["path", "namespace"]

/-- Field names of the POST /embed response documented in
src/backend/README.md. -/
def readmeEmbedResponseFields : List String :=
  ["chunks_in", "chunks_added", "chunks_deduped", "namespace",
   "embedding_dim", "ms"]

/-- Field names of `QueryRequest` in src/unnamed/part_013 (the workflow
editor's api.ts), lines 26-30. -/
def editorQueryRequestFields : List String :=
  ["namespace", "query", "k"]

/-- Field names of `EmbedRequest` in src/unnamed/part_013, lines 16-19. -/
def editorEmbedRequestFields : List String :=
  ["path", "namespace"]

end Rag

/-- C2 counterexample: on the pipeline backend's documented interface the
claim as stated is false — the `rerank` parameter is a string mode, not a
boolean; the query response carries no `answer`, `sources` or
`elapsed_ms` fields; the embed operation takes the `path` of an uploaded
file, not raw `text`; and the elapsed time field of both responses is
named `ms`, not `elapsed_ms`. -/
theorem Rag.api_interface_counterexample_C2 :
    ("rerank", Rag.JsonKind.bool) ∉ Rag.pipelineQueryRequestFieldKinds ∧
    ("rerank", Rag.JsonKind.str) ∈ Rag.pipelineQueryRequestFieldKinds ∧
    "answer" ∉ Rag.pipelineQueryResponseFields ∧
    "sources" ∉ Rag.pipelineQueryResponseFields ∧
    "elapsed_ms" ∉ Rag.pipelineQueryResponseFields ∧
    "text" ∉ Rag.pipelineEmbedRequestFields ∧
    "path" ∈ Rag.pipelineEmbedRequestFields ∧
    "elapsed_ms" ∉ Rag.pipelineEmbedResponseFields := by
  decide

/-- C2 (amended): the exposed query operation takes `namespace`, `query`,
`k` and a `rerank` mode passed as a string rather than a boolean, and
returns `context`, `metadatas`, `ids`, `k`, `rerank`, `namespace` and the
elapsed milliseconds in a field named `ms` — with no `answer`, `sources`
or `elapsed_ms` fields; the exposed embed (ingest) operation takes the
`path` of an uploaded file and `namespace` rather than raw text, and
returns `chunks_in`, `chunks_added`, `chunks_deduped`, `namespace`,
`embedding_dim` and `ms`.  Both backend documents agree on every endpoint
shape, and the workflow editor's client request types are compatible with
them. -/
theorem Rag.api_interface_C2 :
    Rag.pipelineQueryRequestFields = ["namespace", "query", "k", "rerank"] ∧
    Rag.pipelineQueryRequestFields = Rag.readmeQueryRequestFields ∧
    Rag.pipelineQueryResponseFields = Rag.readmeQueryResponseFields ∧
    Rag.pipelineEmbedRequestFields = Rag.readmeEmbedRequestFields ∧
    Rag.pipelineEmbedResponseFields = Rag.readmeEmbedResponseFields ∧
    ["chunks_in", "chunks_added", "chunks_deduped", "embedding_dim"]
      ⊆ Rag.pipelineEmbedResponseFields ∧
    "ms" ∈ Rag.pipelineEmbedResponseFields ∧
    "ms" ∈ Rag.pipelineQueryResponseFields ∧
    "context" ∈ Rag.pipelineQueryResponseFields ∧
    Rag.editorEmbedRequestFields = Rag.pipelineEmbedRequestFields ∧
    Rag.editorQueryRequestFields ⊆ Rag.pipelineQueryRequestFields := by
  decide

namespace Rag

/-! ### Workflow-editor embed node (src/unnamed/part_006) -/

/-- The embed request body (src/unnamed/part_013 `EmbedRequest`): exactly
a path and a namespace.  The `namespace` field is renamed `nsName` because
`namespace` is a Lean keyword. -/
structure EmbedRequest where
  path : String
  nsName : String
deriving DecidableEq, Repr

/-- Chunk-size/overlap pair displayed in the embed node's config panel. -/
structure EmbedNodeConfig where
  chunkSize : Nat
  overlap : Nat
deriving DecidableEq, Repr

/-- From src/unnamed/part_006 `handleEmbed` (lines 41-52): the request is
built from the upload node's path and the workspace namespace only; after
the call returns, the node's config is overwritten with the hardcoded
values `chunkSize: 800, overlap: 150`.  The node's previous config — the
displayed chunk-size/overlap pair — is taken as an input to show that the
request does not depend on it. -/
def handleEmbed (uploadPath nsName : String)
    (prevCfg : Option EmbedNodeConfig) : EmbedRequest × EmbedNodeConfig :=
  (⟨uploadPath, nsName⟩, ⟨800, 150⟩)

end Rag

/-- C8: the embed request sent by the workflow editor's embed node is
always exactly `{path, namespace}`: it is identical for every pair of
displayed chunk-size/overlap values, and the `chunkSize = 800`,
`overlap = 150` values stored in the node's config after the call are
hardcoded client-side and never transmitted (the request type has only
the `path` and `namespace` fields). -/
theorem Rag.embed_node_request_C8 (uploadPath nsName : String)
    (cfg1 cfg2 : Option Rag.EmbedNodeConfig) :
    (Rag.handleEmbed uploadPath nsName cfg1).1
      = (Rag.handleEmbed uploadPath nsName cfg2).1 ∧
    (Rag.handleEmbed uploadPath nsName cfg1).1 = ⟨uploadPath, nsName⟩ ∧
    (Rag.handleEmbed uploadPath nsName cfg1).2 = ⟨800, 150⟩ ∧
    Rag.editorEmbedRequestFields = ["path", "namespace"] :=
  ⟨rfl, rfl, rfl, rfl⟩

namespace Rag

/-! ### Supabase trigger functions (src/unnamed/part_010) -/

/-- The columns of `category_stats` touched by `update_query_stats`
(src/unnamed/part_010 lines 32-40).  `DECIMAL` columns are modelled as
exact rationals. -/
structure CategoryStatRow where
  total_queries : Nat
  avg_response_time : ℚ
  cache_hit_rate : ℚ
deriving DecidableEq, Repr

/-- The columns of a `query_logs` row read by the trigger
(src/unnamed/part_010 lines 20-29). -/
structure QueryLogRow where
  response_time : Int
  cache_hit : Bool
deriving DecidableEq, Repr

/-- From src/unnamed/part_010 `update_query_stats` (lines 91-107): a single
SQL UPDATE evaluates every right-hand side against the pre-update row, so
`total_queries` in each formula is the pre-increment count `n`; the
`CASE WHEN total_queries = 0 THEN 0` arm discards the first observation. -/
def update_query_stats (row : CategoryStatRow) (log : QueryLogRow) :
    CategoryStatRow :=
  { total_queries := row.total_queries + 1
    avg_response_time :=
      (row.avg_response_time * (row.total_queries : ℚ) + (log.response_time : ℚ))
        / ((row.total_queries : ℚ) + 1)
    cache_hit_rate :=
      if row.total_queries = 0 then 0
      else (row.cache_hit_rate * (row.total_queries : ℚ)
          + (if log.cache_hit then 1 else 0)) / ((row.total_queries : ℚ) + 1) }

/-- The `doc_count` column of `category_stats` keyed by category;
`none` means the row is absent. -/
abbrev CategoryStatsMap := String → Option Nat

/-- The state before any document has been inserted. -/
def emptyCategoryStats : CategoryStatsMap := fun _ => none

/-- From src/unnamed/part_010 `update_category_stats` (lines 70-82):
`INSERT (category, 1) ON CONFLICT (category) DO UPDATE
doc_count = doc_count + 1`. -/
def update_category_stats (s : CategoryStatsMap) (cat : String) :
    CategoryStatsMap :=
  fun c =>
    if c = cat then
      match s cat with
      | none => some 1
      | some d => some (d + 1)
    else s c

/-- Reported document count of a category (0 when the row is absent). -/
def docCount (s : CategoryStatsMap) (cat : String) : Nat :=
  (s cat).getD 0

/-- The trigger fires once per row inserted into `documents`; the list
holds the categories of the inserted rows in order. -/
def applyInserts (s : CategoryStatsMap) : List String → CategoryStatsMap
  | [] => s
  | cat :: cats => applyInserts (update_category_stats s cat) cats

theorem docCount_update_same (s : CategoryStatsMap) (cat : String) :
    docCount (update_category_stats s cat) cat = docCount s cat + 1 := by
  unfold docCount update_category_stats
  cases h : s cat with
  | none => simp [h]
  | some d => simp [h]

theorem docCount_update_other (s : CategoryStatsMap) (c0 cat : String)
    (h : cat ≠ c0) :
    docCount (update_category_stats s c0) cat = docCount s cat := by
  unfold docCount update_category_stats
  simp [h]

theorem applyInserts_docCount (cats : List String) :
    ∀ (s : CategoryStatsMap) (cat : String),
      docCount (applyInserts s cats) cat = docCount s cat + cats.count cat := by
  induction cats with
  | nil => intro s cat; simp [applyInserts]
  | cons c0 cats ih =>
    intro s cat
    by_cases hc : cat = c0
    · subst hc
      rw [show applyInserts s (cat :: cats) =
        applyInserts (update_category_stats s cat) cats from rfl]
      rw [ih (update_category_stats s cat) cat, docCount_update_same]
      simp [List.count_cons]
      omega
    · rw [show applyInserts s (c0 :: cats) =
        applyInserts (update_category_stats s c0) cats from rfl]
      rw [ih (update_category_stats s c0) cat, docCount_update_other s c0 cat hc]
      simp [List.count_cons, hc]

end Rag

/-- C9: when a query-log row is inserted for a category whose
`total_queries` is 0, the trigger sets `cache_hit_rate` to 0 even if the
inserted row has `cache_hit = true`; for `total_queries = n > 0` the new
`cache_hit_rate` is `(old_rate * n + hit) / (n + 1)` and the new
`avg_response_time` is `(old_avg * n + new_response_time) / (n + 1)`,
both using the pre-increment count `n`. -/
theorem Rag.query_stats_trigger_C9 (row : Rag.CategoryStatRow)
    (log : Rag.QueryLogRow) :
    (row.total_queries = 0 →
      (Rag.update_query_stats row log).cache_hit_rate = 0) ∧
    (0 < row.total_queries →
      (Rag.update_query_stats row log).cache_hit_rate
        = (row.cache_hit_rate * (row.total_queries : ℚ)
            + (if log.cache_hit then 1 else 0))
          / ((row.total_queries : ℚ) + 1) ∧
      (Rag.update_query_stats row log).avg_response_time
        = (row.avg_response_time * (row.total_queries : ℚ)
            + (log.response_time : ℚ))
          / ((row.total_queries : ℚ) + 1)) ∧
    (Rag.update_query_stats row log).total_queries
      = row.total_queries + 1 := by
  refine ⟨?_, ?_, rfl⟩
  · intro h
    simp [Rag.update_query_stats, h]
  · intro h
    have h0 : row.total_queries ≠ 0 := by omega
    exact ⟨by simp [Rag.update_query_stats, h0], rfl⟩

/-- C9 witness: a first observation with `cache_hit = true` is discarded
(rate set to 0), and at pre-increment count 3 the incremental formulas
hold. -/
theorem Rag.query_stats_trigger_C9_witness :
    (Rag.update_query_stats ⟨0, 0, 0⟩ ⟨20, true⟩).cache_hit_rate = 0 ∧
    (Rag.update_query_stats ⟨3, 10, 1/2⟩ ⟨20, true⟩).cache_hit_rate
      = ((1/2 : ℚ) * ((3 : Nat) : ℚ) + (if (true : Bool) then 1 else 0))
          / (((3 : Nat) : ℚ) + 1) ∧
    (Rag.update_query_stats ⟨3, 10, 1/2⟩ ⟨20, true⟩).avg_response_time
      = ((10 : ℚ) * ((3 : Nat) : ℚ) + ((20 : Int) : ℚ))
          / (((3 : Nat) : ℚ) + 1) :=
  ⟨(Rag.query_stats_trigger_C9 ⟨0, 0, 0⟩ ⟨20, true⟩).1 rfl,
   ((Rag.query_stats_trigger_C9 ⟨3, 10, 1/2⟩ ⟨20, true⟩).2.1 (by decide)).1,
   ((Rag.query_stats_trigger_C9 ⟨3, 10, 1/2⟩ ⟨20, true⟩).2.1 (by decide)).2⟩

/-- C10: each insert into `documents` increments `doc_count` of the
inserted row's category by exactly 1, creating the row with
`doc_count = 1` if it is absent (and touching no other category); hence
starting from an empty statistics table, `doc_count` always equals the
number of document rows inserted for that category. -/
theorem Rag.category_stats_trigger_C10 (cats : List String) (cat : String)
    (s : Rag.CategoryStatsMap) :
    Rag.docCount (Rag.update_category_stats s cat) cat
      = Rag.docCount s cat + 1 ∧
    (∀ c, c ≠ cat → Rag.update_category_stats s cat c = s c) ∧
    Rag.docCount (Rag.applyInserts Rag.emptyCategoryStats cats) cat
      = cats.count cat := by
  refine ⟨Rag.docCount_update_same s cat, ?_, ?_⟩
  · intro c hc
    simp [Rag.update_category_stats, hc]
  · have h := Rag.applyInserts_docCount cats Rag.emptyCategoryStats cat
    simpa [Rag.docCount, Rag.emptyCategoryStats] using h

/-- C10 witness: inserting documents with categories `a`, `b`, `a` gives
`doc_count 2` for `a`, and an insert for `a` leaves `b` untouched. -/
theorem Rag.category_stats_trigger_C10_witness :
    Rag.docCount (Rag.update_category_stats Rag.emptyCategoryStats "a") "a"
      = Rag.docCount Rag.emptyCategoryStats "a" + 1 ∧
    Rag.update_category_stats Rag.emptyCategoryStats "a" "b"
      = Rag.emptyCategoryStats "b" ∧
    Rag.docCount (Rag.applyInserts Rag.emptyCategoryStats ["a", "b", "a"]) "a"
      = (["a", "b", "a"] : List String).count "a" :=
  ⟨(Rag.category_stats_trigger_C10 ["a", "b", "a"] "a" Rag.emptyCategoryStats).1,
   (Rag.category_stats_trigger_C10 ["a", "b", "a"] "a"
      Rag.emptyCategoryStats).2.1 "b" (by decide),
   (Rag.category_stats_trigger_C10 ["a", "b", "a"] "a"
      Rag.emptyCategoryStats).2.2⟩
